import Mathlib

/-!
Verification development for the xmltodict_rs core: a shallow embedding of
the modular parser/writer core (src/parser.rs, src/config.rs, src/escape.rs,
src/unparser.rs, src/error.rs), which the specification identifies as the
system core (the monolithic copy in src/lib.rs is a historical snapshot plus
language-binding glue). Python values are modelled by an inductive tree,
Python dicts by insertion-ordered association lists with unique keys, the
foreign hooks by optional Lean functions, and the pull-based XML tokenizer
(an external collaborator assumed correct by the spec) by a small
spec-modelled lexer used only to close the serialize-then-reparse loop.
-/

set_option maxHeartbeats 1000000
set_option maxRecDepth 10000

/-! ## Character-list string helpers (translations of the Rust `str` operations used) -/

/-- ASCII whitespace test, modelling the whitespace classes `str::trim` removes
for the inputs that occur here. -/
def isWsChar (c : Char) : Bool :=
  c = ' ' || c = '\t' || c = '\n' || c = '\r'

/-- Model of Rust `str::trim`: drop whitespace from both ends. -/
def trimChars (cs : List Char) : List Char :=
  ((cs.dropWhile isWsChar).reverse.dropWhile isWsChar).reverse

/-- Model of Rust `str::split_once(':')`: split at the first colon, colon excluded. -/
def splitOnceColon : List Char → Option (List Char × List Char)
  | [] => none
  | c :: rest =>
    if c = ':' then some ([], rest)
    else (splitOnceColon rest).map (fun p => (c :: p.1, p.2))

/-- Boolean prefix test on character lists. -/
def isPrefOf : List Char → List Char → Bool
  | [], _ => true
  | _ :: _, [] => false
  | p :: ps, c :: cs => p = c && isPrefOf ps cs

/-- Model of Rust `str::contains(&str)`: substring containment. -/
def containsSub : List Char → List Char → Bool
  | [], needle => needle.isEmpty
  | h :: rest, needle => isPrefOf needle (h :: rest) || containsSub rest needle

/-- Model of Rust `[String]::join(sep)`. -/
def joinSep (sep : String) : List String → String
  | [] => ""
  | [x] => x
  | x :: rest => x ++ sep ++ joinSep sep rest

/-- Helper for Rust `str::strip_prefix` on character lists. -/
def stripPrefChars : List Char → List Char → Option (List Char)
  | [], s => some s
  | _ :: _, [] => none
  | p :: ps, c :: cs => if p = c then stripPrefChars ps cs else none

/-- Model of Rust `str::strip_prefix`. -/
def stripPref (p s : String) : Option String :=
  (stripPrefChars p.data s.data).map String.mk

/-! ## The generic tree value (Python object model seen by the core) -/

/-- Generic tree value: the Python values the core produces and consumes.
`null`/`bool`/`text` are scalars, `list` an ordered sequence and `dict` an
insertion-ordered mapping with unique keys. -/
inductive PyValue where
  | null : PyValue
  | bool (b : Bool) : PyValue
  | text (s : String) : PyValue
  | list (xs : List PyValue) : PyValue
  | dict (es : List (String × PyValue)) : PyValue

/-- An insertion-ordered Python dict, as an association list. -/
abbrev Dict := List (String × PyValue)

/-- Python `dict.get`: first (unique) entry for the key. -/
def dictGet : Dict → String → Option PyValue
  | [], _ => none
  | (k, v) :: rest, key => if k == key then some v else dictGet rest key

/-- Python `dict[key] = value`: replace in place (keeping the original
position, as Python dicts do) or append a fresh entry at the end. -/
def dictSet : Dict → String → PyValue → Dict
  | [], key, val => [(key, val)]
  | (k, v) :: rest, key, val =>
    if k == key then (k, val) :: rest else (k, v) :: dictSet rest key val

/-- Test for the Rust `downcast::<PyList>` check. -/
def isList : PyValue → Bool
  | .list _ => true
  | _ => false

/-! ## Python `str()` / `repr()` as used by the writer via `value.str()` -/

/-- A single-quote character, written by code point. -/
def sqChar : Char := Char.ofNat 39

/-- Python `repr` of a string value, in single quotes (sufficient for values
without quotes or escapes). -/
def reprQuote (s : String) : String :=
  String.mk (sqChar :: s.data) ++ String.mk [sqChar]

/-- Work items for the `repr` computation: a value, the items of a list, or
the entries of a dict (the recursion is driven by explicit fuel so that it
unfolds definitionally; any fuel at least the value's size is enough). -/
inductive ReprTask where
  | one (v : PyValue) : ReprTask
  | items (xs : List PyValue) : ReprTask
  | entries (es : List (String × PyValue)) : ReprTask

/-- Python `repr` of the tree values the writer can receive. -/
def reprGo : Nat → ReprTask → String
  | 0, _ => ""
  | _ + 1, .one .null => "None"
  | _ + 1, .one (.bool b) => if b then "True" else "False"
  | _ + 1, .one (.text s) => reprQuote s
  | fuel + 1, .one (.list xs) => "[" ++ reprGo fuel (.items xs) ++ "]"
  | fuel + 1, .one (.dict es) => "\x7b" ++ reprGo fuel (.entries es) ++ "\x7d"
  | _ + 1, .items [] => ""
  | fuel + 1, .items [x] => reprGo fuel (.one x)
  | fuel + 1, .items (x :: rest) =>
    reprGo fuel (.one x) ++ ", " ++ reprGo fuel (.items rest)
  | _ + 1, .entries [] => ""
  | fuel + 1, .entries [(k, v)] => reprQuote k ++ ": " ++ reprGo fuel (.one v)
  | fuel + 1, .entries ((k, v) :: rest) =>
    reprQuote k ++ ": " ++ reprGo fuel (.one v) ++ ", " ++ reprGo fuel (.entries rest)

/-- Python `repr` of a value, with fuel. -/
def pyRepr (fuel : Nat) (v : PyValue) : String := reprGo fuel (.one v)

/-- Python `str()` of a value (PyO3 `value.str()`): identity on strings,
`repr` on containers. -/
def pyStr (fuel : Nat) : PyValue → String
  | .text s => s
  | .null => "None"
  | .bool b => if b then "True" else "False"
  | .list xs => pyRepr fuel (.list xs)
  | .dict es => pyRepr fuel (.dict es)

/-! ## Parse configuration (src/config.rs `ParseConfig`) -/

/-- Parse configuration, translated from `ParseConfig` in src/config.rs.
The newtypes (`AttrPrefix`, `CdataKey`, ...) are plain strings here; the
attribute-prefix field carries a neutral name for lexical reasons.
`item_depth` and `disable_entities` are kept for completeness; the core
logic never reads them (they are `dead_code` in the source). -/
structure ParseConfig where
  xml_attribs : Bool
  attrPref : String
  cdataKey : String
  force_cdata : Bool
  cdataSep : String
  strip_whitespace : Bool
  nsSep : String
  process_namespaces : Bool
  process_comments : Bool
  commentKey : String
  item_depth : Nat
  disable_entities : Bool
  namespaces : Option (List (String × String))

/-- The `Default` impl of `ParseConfig`. -/
def defaultParseConfig : ParseConfig :=
  { xml_attribs := true
    attrPref := "@"
    cdataKey := "#text"
    force_cdata := false
    cdataSep := ""
    strip_whitespace := true
    nsSep := ":"
    process_namespaces := false
    process_comments := false
    commentKey := "#comment"
    item_depth := 0
    disable_entities := true
    namespaces := none }

/-! ## Hooks (foreign callables injected into the parser) -/

/-- The post-processing hook: `(path, key, value) -> Option (key, value)`,
`none` meaning "drop this entry". -/
abbrev Postproc := List String → String → PyValue → Option (String × PyValue)

/-- The `force_list` argument's accepted shapes (`XmlParser::should_force_list`
tries, in order: a plain boolean, a container tested via `__contains__`, and a
callable on `(path, key, value)`); `Option.none` at the use sites models the
absent argument. -/
inductive ForceListSpec where
  | flag (b : Bool) : ForceListSpec
  | keySet (ks : List String) : ForceListSpec
  | pred (f : List String → String → PyValue → Bool) : ForceListSpec

/-- Translation of `XmlParser::should_force_list` (src/parser.rs 79-102). -/
def should_force_list (fl : Option ForceListSpec) (path : List String)
    (key : String) (value : PyValue) : Bool :=
  match fl with
  | none => false
  | some (.flag b) => b
  | some (.keySet ks) => ks.contains key
  | some (.pred f) => f path key value

/-- Translation of `XmlParser::apply_postprocessor` (src/parser.rs 104-128):
no hook passes `(key, data)` through; a hook returning `None` yields `none`,
otherwise the returned `(key, value)` pair. -/
def apply_postprocessor (pp : Option Postproc) (path : List String)
    (key : String) (data : PyValue) : Option (String × PyValue) :=
  match pp with
  | none => some (key, data)
  | some f => f path key data

/-- Translation of `XmlParser::push_data` (src/parser.rs 130-161), the merge
rule: run the hook; on `none` discard; if the (post-hook) key is present and
holds a list, append the raw pre-hook `data`; if present and not a list,
promote to a two-element list `[existing, postHookValue]`; if absent, consult
the force-list policy to store either `[postHookValue]` or the bare value. -/
def push_data (cfg : ParseConfig) (fl : Option ForceListSpec) (pp : Option Postproc)
    (path : List String) (item : Dict) (key : String) (data : PyValue) : Dict :=
  match apply_postprocessor pp path key data with
  | none => item
  | some (fk, fv) =>
    match dictGet item fk with
    | some existing =>
      match existing with
      | .list xs => dictSet item fk (.list (xs ++ [data]))
      | _ => dictSet item fk (.list [existing, fv])
    | none =>
      if should_force_list fl path fk fv then dictSet item fk (.list [fv])
      else dictSet item fk fv

/-! ## Namespace machinery (src/parser.rs) -/

/-- A prefix-to-URI namespace mapping (the `HashMap<String, String>` of the
source, modelled insertion-ordered; the logic only ever queries it by key). -/
abbrev NsMap := List (String × String)

/-- Lookup in a namespace (or alias) mapping. -/
def nsGet : NsMap → String → Option String
  | [], _ => none
  | (k, v) :: rest, key => if k == key then some v else nsGet rest key

/-- Insert-or-overwrite in a namespace mapping. -/
def nsIns : NsMap → String → String → NsMap
  | [], key, val => [(key, val)]
  | (k, v) :: rest, key, val =>
    if k == key then (k, val) :: rest else (k, v) :: nsIns rest key val

/-- Lookup in the optional externally supplied URI-to-alias table. -/
def aliasGet (table : Option NsMap) (uri : String) : Option String :=
  match table with
  | none => none
  | some m => nsGet m uri

/-- quick_xml `PrefixDeclaration`: which kind of `xmlns` declaration an
attribute key is. -/
inductive PrefixDecl where
  | dflt : PrefixDecl
  | named (p : String) : PrefixDecl

/-- quick_xml `QName::as_namespace_binding`: `xmlns` declares the default
namespace, `xmlns:p` declares prefix `p`, anything else is no declaration. -/
def asNsBinding (key : String) : Option PrefixDecl :=
  match key.data with
  | ['x', 'm', 'l', 'n', 's'] => some .dflt
  | 'x' :: 'm' :: 'l' :: 'n' :: 's' :: ':' :: p => some (.named (String.mk p))
  | _ => none

/-- The split step of `XmlParser::build_name` (src/parser.rs 172-174): split on
the first colon; an unprefixed name gets the empty-string (default namespace)
prefix. -/
def splitName (full_name : String) : String × String :=
  match splitOnceColon full_name.data with
  | some (p, l) => (String.mk p, String.mk l)
  | none => ("", full_name)

/-- Translation of `XmlParser::build_name` (src/parser.rs 163-188): with
namespace processing off, or no namespace frame, the name is unchanged;
otherwise the prefix is resolved through the current mapping, the URI is
alias-substituted when the external table has it, an empty alias yields just
the local name, and an unbound prefix leaves the name unchanged. -/
def build_name (cfg : ParseConfig) (nsStack : List NsMap) (full_name : String) : String :=
  if !cfg.process_namespaces then full_name
  else
    match nsStack with
    | [] => full_name
    | ns_map :: _ =>
      match nsGet ns_map (splitName full_name).1 with
      | some uri =>
        let mapped := (aliasGet cfg.namespaces uri).getD uri
        if mapped = "" then (splitName full_name).2
        else mapped ++ cfg.nsSep ++ (splitName full_name).2
      | none => full_name

/-! ## Parser state and event handlers (src/parser.rs `XmlParser`) -/

/-- The mutable parser state: the frame stack of in-progress element dicts,
the path of resolved names (stored top-first here; the source's `Vec` grows
at the end, and hooks see it bottom-first via `.reverse`), the per-frame text
fragment stacks, and the per-frame namespace mappings. -/
structure ParserState where
  stack : List Dict
  path : List String
  text_stack : List (List String)
  namespace_stack : List NsMap

/-- The freshly constructed parser (`XmlParser::new`). -/
def initState : ParserState := ⟨[], [], [], []⟩

/-- The attribute scan of `XmlParser::start_element` (src/parser.rs 202-249):
walk the raw attributes in order, moving namespace declarations into the
current mapping (and, when an alias table is supplied, marking the frame if a
declared URI is missing from it), and marking the frame when an ordinary
attribute uses a prefix bound in the mapping built so far whose URI the alias
table lacks (or when no table was supplied). Returns the extended mapping,
the mark, and the ordinary attributes in order. -/
def scanAttrs (cfg : ParseConfig) :
    NsMap → Bool → List (String × String) → NsMap × Bool × List (String × String)
  | nsMap, setX, [] => (nsMap, setX, [])
  | nsMap, setX, (k, v) :: rest =>
    match (if cfg.process_namespaces then asNsBinding k else none) with
    | some .dflt => scanAttrs cfg (nsIns nsMap "" v) setX rest
    | some (.named p) =>
      let setX' :=
        if !setX then
          match cfg.namespaces with
          | some m => !(nsGet m v).isSome
          | none => setX
        else setX
      scanAttrs cfg (nsIns nsMap p v) setX' rest
    | none =>
      let setX' :=
        if cfg.process_namespaces && !setX && k.data.any (fun c => c = ':') then
          match splitOnceColon k.data with
          | some (p, _) =>
            match nsGet nsMap (String.mk p) with
            | some uri =>
              match cfg.namespaces with
              | some m => if (nsGet m uri).isSome then setX else true
              | none => true
            | none => setX
          | none => setX
        else setX
      let (m', s', ns') := scanAttrs cfg nsMap setX' rest
      (m', s', (k, v) :: ns')

/-- Translation of `XmlParser::start_element` (src/parser.rs 190-296): extend
the inherited namespace mapping from the tag's declarations, optionally emit
the synthetic `attrPref ++ "xmlns"` entry holding the merged mapping, push
the mapping, resolve and hook each ordinary attribute into the fresh element
dict, resolve the element name, and push frame, path entry and fragment
list. -/
def start_element (cfg : ParseConfig) (pp : Option Postproc) (s : ParserState)
    (name : String) (attrs : List (String × String)) : ParserState :=
  let base := (s.namespace_stack.head?).getD []
  let scanned :=
    if cfg.xml_attribs && !attrs.isEmpty then scanAttrs cfg base false attrs
    else (base, false, [])
  let nsMap := scanned.1
  let setX := scanned.2.1
  let normals := scanned.2.2
  let d0 : Dict :=
    if cfg.xml_attribs && setX then
      dictSet [] (cfg.attrPref ++ "xmlns")
        (.dict (nsMap.map (fun kv => (kv.1, PyValue.text kv.2))))
    else []
  let nsStack' := nsMap :: s.namespace_stack
  let d1 :=
    if cfg.xml_attribs then
      normals.foldl
        (fun d kv =>
          let lname :=
            if cfg.process_namespaces && containsSub kv.1.data cfg.nsSep.data then
              build_name cfg nsStack' kv.1
            else kv.1
          let pk := cfg.attrPref ++ lname
          match apply_postprocessor pp s.path.reverse pk (.text kv.2) with
          | none => d
          | some fkv => dictSet d fkv.1 fkv.2)
        d0
    else d0
  let element_name := if cfg.process_namespaces then build_name cfg nsStack' name else name
  { stack := d1 :: s.stack
    path := element_name :: s.path
    text_stack := [] :: s.text_stack
    namespace_stack := nsStack' }

/-- The text-content computation of `XmlParser::end_element`
(src/parser.rs 311-320): no fragments means no text; otherwise the fragments
are joined with the configured separator, and a joined string that trims to
empty counts as no text when whitespace stripping is on. -/
def textContent (cfg : ParseConfig) (parts : List String) : Option String :=
  if parts.isEmpty then none
  else
    let joined := joinSep cfg.cdataSep parts
    if cfg.strip_whitespace && (trimChars joined.data).isEmpty then none
    else some joined

/-- Errors surfaced by the embedded core: `expat` models the
`xml.parsers.expat.ExpatError` raised through `expat_error`, `valueError`
the `PyValueError` of the writer, and `outOfFuel` exhaustion of the explicit
recursion fuel that models the writer's unbounded call stack. -/
inductive Err where
  | expat (msg : String) : Err
  | valueError (msg : String) : Err
  | outOfFuel : Err
deriving DecidableEq

/-- Translation of `XmlParser::end_element` (src/parser.rs 298-378): resolve
the closing name, pop frame, fragments and path entry (any missing is an
"unexpected closing tag"), compute the text content and then the frame's
final value by cases on attribute and text presence, and either wrap it as
the document root through one more hook application (a `None` hook result
returning early, before the namespace frame is popped) or merge it into the
parent frame; finally pop the namespace frame. -/
def end_element (cfg : ParseConfig) (fl : Option ForceListSpec) (pp : Option Postproc)
    (s : ParserState) (name : String) : Except Err ParserState :=
  let element_name := build_name cfg s.namespace_stack name
  match s.stack, s.text_stack, s.path with
  | current :: restS, tp :: restT, _ :: restP =>
    let text_content := textContent cfg tp
    let has_attrs := !current.isEmpty
    let hpath := restP.reverse
    let final_value : PyValue :=
      match has_attrs, text_content with
      | false, none => .null
      | false, some t =>
        if cfg.force_cdata then
          .dict (match apply_postprocessor pp hpath cfg.cdataKey (.text t) with
                 | some fkv => dictSet [] fkv.1 fkv.2
                 | none => [])
        else .text t
      | true, some t =>
        .dict (match apply_postprocessor pp hpath cfg.cdataKey (.text t) with
               | some fkv => dictSet current fkv.1 fkv.2
               | none => current)
      | true, none => .dict current
    match restS with
    | [] =>
      match apply_postprocessor pp hpath element_name final_value with
      | none => .ok ⟨[], restP, restT, s.namespace_stack⟩
      | some fkv =>
        match s.namespace_stack with
        | _ :: nsRest => .ok ⟨[dictSet [] fkv.1 fkv.2], restP, restT, nsRest⟩
        | [] => .error (.expat "unexpected closing tag")
    | parent :: restS2 =>
      let parent' := push_data cfg fl pp hpath parent element_name final_value
      match s.namespace_stack with
      | _ :: nsRest => .ok ⟨parent' :: restS2, restP, restT, nsRest⟩
      | [] => .error (.expat "unexpected closing tag")
  | _, _, _ => .error (.expat "unexpected closing tag")

/-- Translation of `XmlParser::characters` (src/parser.rs 380-384): append the
fragment to the current frame's list; with no open frame the data is
ignored. -/
def charactersEv (s : ParserState) (data : String) : ParserState :=
  { s with
    text_stack :=
      match s.text_stack with
      | h :: t => (h ++ [data]) :: t
      | [] => [] }

/-- Translation of `XmlParser::comment` (src/parser.rs 386-397): with no open
frame the comment is ignored; otherwise the (possibly trimmed) text is merged
into the enclosing frame under the comment key. -/
def commentEvH (cfg : ParseConfig) (fl : Option ForceListSpec) (pp : Option Postproc)
    (s : ParserState) (ctext : String) : ParserState :=
  match s.stack with
  | [] => s
  | parent :: rest =>
    let c := if cfg.strip_whitespace then String.mk (trimChars ctext.data) else ctext
    { s with
      stack := push_data cfg fl pp s.path.reverse parent cfg.commentKey (.text c) :: rest }

/-! ## The driving loop (src/lib.rs `parse_xml_with_reader`, 833-910) -/

/-- Tokenizer events, as consumed by the driver (quick_xml `Event` variants
the loop handles; `expand_empty_elements` is modelled by treating an empty
tag as a start plus an end). -/
inductive XmlEvent where
  | startTag (name : String) (attrs : List (String × String)) : XmlEvent
  | endTag (name : String) : XmlEvent
  | emptyTag (name : String) (attrs : List (String × String)) : XmlEvent
  | textEv (s : String) : XmlEvent
  | cdataEv (s : String) : XmlEvent
  | commentEv (s : String) : XmlEvent

/-- Translation of `validate_element_name` (src/error.rs): an empty name, or
one containing a raw angle bracket, is not well-formed. -/
def validateName (name : String) : Except Err Unit :=
  if name = "" || name.data.any (fun c => c = '<' || c = '>') then
    .error (.expat "not well-formed (invalid element name)")
  else .ok ()

/-- One iteration of the event loop of `parse_xml_with_reader`
(src/lib.rs 852-896). Text events are trimmed (and dropped when blank) when
whitespace stripping is on, modelling the reader's `trim_text` option; CDATA
is passed through raw; comments are handled only under `process_comments`. -/
def stepEvent (cfg : ParseConfig) (fl : Option ForceListSpec) (pp : Option Postproc)
    (s : ParserState) : XmlEvent → Except Err ParserState
  | .startTag n attrs => do
    let _ ← validateName n
    .ok (start_element cfg pp s n attrs)
  | .endTag n => do
    let _ ← validateName n
    end_element cfg fl pp s n
  | .emptyTag n attrs => do
    let _ ← validateName n
    end_element cfg fl pp (start_element cfg pp s n attrs) n
  | .textEv t =>
    if cfg.strip_whitespace then
      let tt := trimChars t.data
      if tt.isEmpty then .ok s else .ok (charactersEv s (String.mk tt))
    else .ok (charactersEv s t)
  | .cdataEv t => .ok (charactersEv s t)
  | .commentEv c =>
    if cfg.process_comments then .ok (commentEvH cfg fl pp s c) else .ok s

/-- Fold of `stepEvent` over the event stream. -/
def runEvents (cfg : ParseConfig) (fl : Option ForceListSpec) (pp : Option Postproc) :
    ParserState → List XmlEvent → Except Err ParserState
  | s, [] => .ok s
  | s, e :: rest => do
    let s' ← stepEvent cfg fl pp s e
    runEvents cfg fl pp s' rest

/-- Translation of `parse_xml_with_reader` (src/lib.rs 833-910) over an event
stream: run the events from the fresh parser, then enforce the end-of-input
checks — residual path, fragment or namespace state means unclosed elements;
the completion stack must hold exactly one root dict. -/
def parseEvents (cfg : ParseConfig) (fl : Option ForceListSpec) (pp : Option Postproc)
    (events : List XmlEvent) : Except Err Dict := do
  let s ← runEvents cfg fl pp initState events
  if !s.path.isEmpty || !s.text_stack.isEmpty || !s.namespace_stack.isEmpty then
    .error (.expat "unclosed element(s) found")
  else
    match s.stack with
    | [one] => .ok one
    | [] => .error (.expat "no element found")
    | _ => .error (.expat "unclosed element(s) found")

/-! ## Escaping (src/escape.rs) -/

/-- Rust `Cow<str>`: either the borrowed original or a freshly owned string. -/
inductive RCow where
  | borrowed (s : String) : RCow
  | owned (s : String) : RCow
deriving DecidableEq

/-- The string carried by a `Cow`. -/
def RCow.toStr : RCow → String
  | .borrowed s => s
  | .owned s => s

/-- The characters `escape_xml` escapes (the `AMPERSAND`/`LT`/`GT` bytes). -/
def specialText (c : Char) : Bool :=
  c = '&' || c = '<' || c = '>'

/-- The entity emitted by `escape_xml` for a special character. -/
def entityText (c : Char) : String :=
  if c = '&' then "&amp;" else if c = '<' then "&lt;" else "&gt;"

/-- The scanning loop of `escape_xml` (src/escape.rs 28-58): `pending` holds
the run of ordinary characters since the last flush (the `last_pos..i` slice),
flushed together with the entity at each special character, and flushed once
more at the end. -/
def escTextGo : String → List Char → List Char → String
  | acc, pending, [] => acc ++ String.mk pending.reverse
  | acc, pending, c :: rest =>
    if specialText c then
      escTextGo (acc ++ String.mk pending.reverse ++ entityText c) [] rest
    else escTextGo acc (c :: pending) rest

/-- Translation of `escape_xml` (src/escape.rs 13-69): a presence check (the
`memchr3` call) returns the borrowed input unchanged when no special
character occurs; otherwise one owned string is built by the scanning loop. -/
def escape_xml (text : String) : RCow :=
  if text.data.any specialText then .owned (escTextGo "" [] text.data)
  else .borrowed text

/-- The characters `escape_xml_attr` escapes (text specials plus the double
quote). -/
def specialAttr (c : Char) : Bool :=
  c = '&' || c = '<' || c = '>' || c = '"'

/-- The entity emitted by `escape_xml_attr` for a special character. -/
def entityAttr (c : Char) : String :=
  if c = '&' then "&amp;" else if c = '<' then "&lt;" else if c = '>' then "&gt;" else "&quot;"

/-- The scanning loop of `escape_xml_attr` (src/escape.rs 75-100): the
`Option` accumulator stays `none` until the first special character (so the
borrowed input can be returned); on each special the pending run (on the
first escape, the whole prefix) is flushed together with the entity. -/
def escAttrGo (orig : String) : Option String → List Char → List Char → RCow
  | none, _, [] => .borrowed orig
  | some acc, pending, [] => .owned (acc ++ String.mk pending.reverse)
  | accOpt, pending, c :: rest =>
    if specialAttr c then
      escAttrGo orig (some ((accOpt.getD "") ++ String.mk pending.reverse ++ entityAttr c)) [] rest
    else escAttrGo orig accOpt (c :: pending) rest

/-- Translation of `escape_xml_attr` (src/escape.rs 71-109). -/
def escape_xml_attr (text : String) : RCow :=
  escAttrGo text none [] text.data

/-! ## Serializer (src/unparser.rs `XmlWriter`, src/lib.rs `unparse`) -/

/-- Serialization configuration, translated from `UnparseConfig`
(src/config.rs); the attribute-prefix field again carries a neutral name. -/
structure UnparseConfig where
  encoding : String
  full_document : Bool
  short_empty_elements : Bool
  attrPref : String
  cdataKey : String
  pretty : Bool
  newl : String
  indent : String

/-- The pre-processing hook of the writer: `(key, value) -> Option (key,
value)`, `none` suppressing the node. -/
abbrev Preproc := String → PyValue → Option (String × PyValue)

/-- Translation of `XmlWriter::apply_preprocessor`. -/
def applyPre (pre : Option Preproc) (key : String) (data : PyValue) :
    Option (String × PyValue) :=
  match pre with
  | none => some (key, data)
  | some f => f key data

/-- Translation of `XmlWriter::write_indent`: the indent unit repeated once
per level (under pretty-printing; callers guard on `pretty`). -/
def indentStr (cfg : UnparseConfig) (lvl : Nat) : String :=
  String.join (List.replicate lvl cfg.indent)

/-- The attribute/text scalar rendering of `write_dict_element`: booleans
render as `true`/`false`, everything else through Python `str()`. -/
def scalarStr (fuel : Nat) : PyValue → String
  | .bool b => if b then "true" else "false"
  | v => pyStr fuel v

/-- The partition loop of `XmlWriter::write_dict_element`
(src/unparser.rs): each entry, in order, becomes an attribute (key carries
the attribute prefix), the text content (key equals the text key; a later
occurrence overwrites), or a child element. -/
def partitionEntries (cfg : UnparseConfig) (fuel : Nat) :
    List (String × PyValue) → List (String × String) × Option String × List (String × PyValue)
  | [] => ([], none, [])
  | (k, v) :: rest =>
    let r := partitionEntries cfg fuel rest
    match stripPref cfg.attrPref k with
    | some attr_name => ((attr_name, scalarStr fuel v) :: r.1, r.2.1, r.2.2)
    | none =>
      if k == cfg.cdataKey then
        (r.1, (if r.2.1.isSome then r.2.1 else some (scalarStr fuel v)), r.2.2)
      else (r.1, r.2.1, (k, v) :: r.2.2)

/-- The opening-tag text: tag name followed by escaped attributes. -/
def openingTag (tag : String) (attrs : List (String × String)) : String :=
  "<" ++ tag ++ String.join (attrs.map (fun a => " " ++ a.1 ++ "=\"" ++ (escape_xml_attr a.2).toStr ++ "\""))

/-- Work items for the writer's recursion (`write_element`,
`write_dict_element` and their two loops are mutually recursive in the
source; here they are branches of one fuel-driven dispatcher so that the
computation unfolds definitionally). -/
inductive WTask where
  | elem (lvl : Nat) (tag : String) (value : PyValue) (needsNl : Bool) : WTask
  | litems (lvl : Nat) (tag : String) (xs : List PyValue) (nl : Bool) : WTask
  | dictEl (lvl : Nat) (tag : String) (es : List (String × PyValue)) : WTask
  | children (lvl : Nat) (es : List (String × PyValue)) (flag : Bool) : WTask

/-- The writer's recursion. `elem` is `XmlWriter::write_element`
(src/unparser.rs): apply the pre-processing hook (a `None` suppresses the
node), emit the pretty newline-plus-indent when not the first sibling, then
render by value shape — `null` as an empty element per
`short_empty_elements`, a dict via `dictEl`, a list as one sibling element
per item reusing the tag, a boolean as a `true`/`false` text element,
anything else as an escaped text element. `dictEl` is
`XmlWriter::write_dict_element`: partition the entries, emit the opening tag
with escaped attribute values, then either close as an empty element or emit
the escaped text, the children (first child's separator flag is the pretty
switch, deeper indent inside, trailing newline-plus-indent after) and the
closing tag. The fuel models the writer's unbounded call stack (a hostile
hook can grow the value forever). -/
def writeGo (cfg : UnparseConfig) (pre : Option Preproc) :
    Nat → WTask → Except Err String
  | 0, _ => .error .outOfFuel
  | fuel + 1, .elem lvl tag value needsNl =>
    (match applyPre pre tag value with
     | none => .ok ""
     | some fkv =>
       let lead := if cfg.pretty && needsNl then cfg.newl ++ indentStr cfg lvl else ""
       match fkv.2 with
       | .null =>
         .ok (lead ++ (if cfg.short_empty_elements then "<" ++ fkv.1 ++ "/>"
                       else "<" ++ fkv.1 ++ "></" ++ fkv.1 ++ ">"))
       | .dict es => do
         let body ← writeGo cfg pre fuel (.dictEl lvl fkv.1 es)
         .ok (lead ++ body)
       | .list xs => do
         let body ← writeGo cfg pre fuel (.litems lvl fkv.1 xs needsNl)
         .ok (lead ++ body)
       | .bool b =>
         .ok (lead ++ "<" ++ fkv.1 ++ ">" ++ (if b then "true" else "false")
              ++ "</" ++ fkv.1 ++ ">")
       | v =>
         .ok (lead ++ "<" ++ fkv.1 ++ ">" ++ (escape_xml (pyStr fuel v)).toStr
              ++ "</" ++ fkv.1 ++ ">"))
  | _ + 1, .litems _ _ [] _ => .ok ""
  | fuel + 1, .litems lvl tag (x :: rest) nl => do
    let a ← writeGo cfg pre fuel (.elem lvl tag x nl)
    let b ← writeGo cfg pre fuel (.litems lvl tag rest true)
    .ok (a ++ b)
  | fuel + 1, .dictEl lvl tag es =>
    let parts := partitionEntries cfg fuel es
    let opening := openingTag tag parts.1
    if parts.2.2.isEmpty && parts.2.1.isNone then
      .ok (opening ++ (if cfg.short_empty_elements then "/>" else "></" ++ tag ++ ">"))
    else do
      let mid := match parts.2.1 with
        | some t => (escape_xml t).toStr
        | none => ""
      let childPart ←
        if parts.2.2.isEmpty then pure ""
        else do
          let cs ← writeGo cfg pre fuel (.children (lvl + 1) parts.2.2 cfg.pretty)
          pure (cs ++ (if cfg.pretty then cfg.newl ++ indentStr cfg lvl else ""))
      .ok (opening ++ ">" ++ mid ++ childPart ++ "</" ++ tag ++ ">")
  | _ + 1, .children _ [] _ => .ok ""
  | fuel + 1, .children lvl ((ct, cv) :: rest) flag => do
    let a ← writeGo cfg pre fuel (.elem lvl ct cv flag)
    let b ← writeGo cfg pre fuel (.children lvl rest true)
    .ok (a ++ b)

/-- `XmlWriter::write_element`, as a wrapper over the dispatcher. -/
def writeElement (cfg : UnparseConfig) (pre : Option Preproc) (fuel lvl : Nat)
    (tag : String) (value : PyValue) (needsNl : Bool) : Except Err String :=
  writeGo cfg pre fuel (.elem lvl tag value needsNl)

/-- `XmlWriter::write_dict_element`, as a wrapper over the dispatcher. -/
def writeDictElement (cfg : UnparseConfig) (pre : Option Preproc) (fuel lvl : Nat)
    (tag : String) (es : List (String × PyValue)) : Except Err String :=
  writeGo cfg pre fuel (.dictEl lvl tag es)

/-- The top-level element loop of `unparse`: one `write_element` per entry,
only the first without a leading separator (this is also the child loop of
`write_dict_element` up to the initial flag). -/
def writeChildren (cfg : UnparseConfig) (pre : Option Preproc) (fuel lvl : Nat)
    (es : List (String × PyValue)) (flag : Bool) : Except Err String :=
  writeGo cfg pre fuel (.children lvl es flag)

/-- Translation of `unparse` (src/lib.rs 1387-1440): under full-document mode
the top-level mapping must have exactly one entry — the check happens before
anything is written, so the error path produces no output at all; then the
optional declaration header and one element per top-level entry (only the
first without a leading separator). -/
def unparse (fuel : Nat) (cfg : UnparseConfig) (pre : Option Preproc)
    (d : Dict) : Except Err String :=
  if cfg.full_document && d.length == 0 then
    .error (.valueError "Document must have exactly one root")
  else if cfg.full_document && d.length > 1 then
    .error (.valueError "Document must have exactly one root")
  else do
    let header :=
      if cfg.full_document then
        "<?xml version=\"1.0\" encoding=\"" ++ cfg.encoding ++ "\"?>" ++ cfg.newl
      else ""
    let body ← writeChildren cfg pre fuel 0 d false
    .ok (header ++ body)

/-! ## A spec-modelled tokenizer, to close the serialize-then-reparse loop -/

/-- Modelled from the spec: the underlying XML tokenizer is an external
collaborator ("assumed to be a correct, spec-conforming low-level lexer
emitting start/end/empty/text/CDATA/comment/EOF events", spec section 1);
this is a small conforming lexer for the markup the writer emits —
declarations are skipped, tags with double-quoted attributes and comments
are recognized, and text and attribute values are entity-unescaped. -/
def unescEnt : List Char → List Char
  | [] => []
  | '&' :: 'a' :: 'm' :: 'p' :: ';' :: rest => '&' :: unescEnt rest
  | '&' :: 'l' :: 't' :: ';' :: rest => '<' :: unescEnt rest
  | '&' :: 'g' :: 't' :: ';' :: rest => '>' :: unescEnt rest
  | '&' :: 'q' :: 'u' :: 'o' :: 't' :: ';' :: rest => '"' :: unescEnt rest
  | c :: rest => c :: unescEnt rest

/-- Modelled from the spec: a tag-interior name, ending at whitespace, `/`,
`>` or `=`. -/
def readName (cs : List Char) : List Char × List Char :=
  (cs.takeWhile (fun c => !(isWsChar c || c = '/' || c = '>' || c = '=')),
   cs.dropWhile (fun c => !(isWsChar c || c = '/' || c = '>' || c = '=')))

/-- Modelled from the spec: skip tag-interior whitespace. -/
def skipWs (cs : List Char) : List Char :=
  cs.dropWhile isWsChar

/-- Modelled from the spec: the attribute list of a tag, double-quoted
values, ending at `>` or `/>`; returns the attributes, the rest of the
input, and whether the tag was self-closing. -/
def readAttrs : Nat → List Char → Except Err (List (String × String) × List Char × Bool)
  | 0, _ => .error .outOfFuel
  | fuel + 1, cs =>
    match skipWs cs with
    | '>' :: rest => .ok ([], rest, false)
    | '/' :: '>' :: rest => .ok ([], rest, true)
    | cs' =>
      let (nm, r1) := readName cs'
      if nm.isEmpty then .error (.expat "not well-formed (token)")
      else
        match skipWs r1 with
        | '=' :: r2 =>
          match skipWs r2 with
          | '"' :: r3 =>
            let v := r3.takeWhile (fun c => c ≠ '"')
            match r3.dropWhile (fun c => c ≠ '"') with
            | '"' :: r4 => do
              let rest ← readAttrs fuel r4
              .ok ((String.mk nm, String.mk (unescEnt v)) :: rest.1, rest.2.1, rest.2.2)
            | _ => .error (.expat "unclosed attribute value")
          | _ => .error (.expat "not well-formed (token)")
        | _ => .error (.expat "not well-formed (token)")

/-- Modelled from the spec: skip the remainder of an XML declaration or
processing instruction, past the closing `?>`. -/
def dropDecl : List Char → List Char
  | [] => []
  | '?' :: '>' :: r => r
  | _ :: r => dropDecl r

/-- Modelled from the spec: the body of a comment, up to the closing `-->`. -/
def takeCom : List Char → List Char × List Char
  | [] => ([], [])
  | '-' :: '-' :: '>' :: r => ([], r)
  | c :: r =>
    let p := takeCom r
    (c :: p.1, p.2)

/-- Modelled from the spec: the main tokenizer loop producing the event
stream for a document; fuel is the input length at top level. -/
def tokGo : Nat → List Char → Except Err (List XmlEvent)
  | 0, _ => .error .outOfFuel
  | _ + 1, [] => .ok []
  | fuel + 1, cs =>
    match cs with
    | '<' :: '?' :: rest => tokGo fuel (dropDecl rest)
    | '<' :: '!' :: '-' :: '-' :: rest =>
      let p := takeCom rest
      do
        let evs ← tokGo fuel p.2
        .ok (.commentEv (String.mk p.1) :: evs)
    | '<' :: '/' :: rest =>
      let (nm, r1) := readName rest
      (match skipWs r1 with
       | '>' :: r2 => do
         let evs ← tokGo fuel r2
         .ok (.endTag (String.mk nm) :: evs)
       | _ => .error (.expat "not well-formed (token)"))
    | '<' :: rest => do
      let (nm, r1) := readName rest
      let at_ ← readAttrs (fuel + 1) r1
      let evs ← tokGo fuel at_.2.1
      if at_.2.2 then .ok (.emptyTag (String.mk nm) at_.1 :: evs)
      else .ok (.startTag (String.mk nm) at_.1 :: evs)
    | _ => do
      let txt := cs.takeWhile (fun c => c ≠ '<')
      let evs ← tokGo fuel (cs.dropWhile (fun c => c ≠ '<'))
      .ok (.textEv (String.mk (unescEnt txt)) :: evs)

/-- Modelled from the spec: tokenize a document string. -/
def tokenize (s : String) : Except Err (List XmlEvent) :=
  tokGo (s.data.length + 1) s.data

/-! ## Claim-level helper definitions and concrete fixtures -/

/-- The text-insertion step of `end_element`'s attribute-and-text case: pass
the text through the hook and, unless dropped, insert it into the mapping. -/
def hookTextInsert (pp : Option Postproc) (path : List String) (key t : String)
    (d : Dict) : Dict :=
  match apply_postprocessor pp path key (.text t) with
  | some fkv => dictSet d fkv.1 fkv.2
  | none => d

/-- Character replacement of `escapeText` as the specification words it:
ampersand, less-than and greater-than become entities, all other characters
are unchanged. -/
def replTextSpec (c : Char) : List Char :=
  if c = '&' then "&amp;".data
  else if c = '<' then "&lt;".data
  else if c = '>' then "&gt;".data
  else [c]

/-- Character replacement of `escapeAttributeValue` as the specification
words it: additionally the double quote becomes an entity. -/
def replAttrSpec (c : Char) : List Char :=
  if c = '&' then "&amp;".data
  else if c = '<' then "&lt;".data
  else if c = '>' then "&gt;".data
  else if c = '"' then "&quot;".data
  else [c]

/-- The default parse configuration with namespace processing switched on. -/
def cfgNs : ParseConfig := { defaultParseConfig with process_namespaces := true }

/-- A post-processing hook that drops every entry. -/
def ppDrop : Postproc := fun _ _ _ => none

/-- A post-processing hook that keeps keys and replaces every value, to
separate pre-hook from post-hook values observably. -/
def ppPost : Postproc := fun _ k _ => some (k, PyValue.text "post")

/-- Default serializer configuration without the document header, so element
markup is observed exactly. -/
def ucfg : UnparseConfig :=
  { encoding := "utf-8"
    full_document := false
    short_empty_elements := false
    attrPref := "@"
    cdataKey := "#text"
    pretty := false
    newl := "\n"
    indent := "\t" }

/-- Event stream of `<a xmlns:n="u" n:x="1"></a>`. -/
def evC1 : List XmlEvent := [.startTag "a" [("xmlns:n", "u"), ("n:x", "1")], .endTag "a"]

/-- The tree the parser produces for `evC1` under `cfgNs`: the ordinary
prefixed attribute marks the frame, so the synthetic `@xmlns` entry carrying
the merged mapping is emitted alongside the resolved attribute. -/
def tC1 : Dict :=
  [("a", PyValue.dict [("@xmlns", PyValue.dict [("n", PyValue.text "u")]),
                       ("@u:x", PyValue.text "1")])]

/-- The full round trip for `evC1`: parse, serialize under the matching
configuration, tokenize the markup, parse again. -/
def roundtripC1 : Except Err Dict := do
  let t ← parseEvents cfgNs none none evC1
  let out ← unparse 50 ucfg none t
  let evs ← tokenize out
  parseEvents cfgNs none none evs

/-- Event stream of `<a xmlns:ns="urn:x"><ns:b>1</ns:b></a>`. -/
def evC2 : List XmlEvent :=
  [.startTag "a" [("xmlns:ns", "urn:x")], .startTag "ns:b" [],
   .textEv "1", .endTag "ns:b", .endTag "a"]

/-- Event stream of `<a><b>1</b><b>2</b></a>`. -/
def evC4 : List XmlEvent :=
  [.startTag "a" [], .startTag "b" [], .textEv "1", .endTag "b",
   .startTag "b" [], .textEv "2", .endTag "b", .endTag "a"]

/-- Event stream of `<a><b>1</b></a>`. -/
def evC5 : List XmlEvent :=
  [.startTag "a" [], .startTag "b" [], .textEv "1", .endTag "b", .endTag "a"]

/-! ## Claim C1 -/

/-- C1: the round-trip property fails on the code. Parsing
`<a xmlns:n="u" n:x="1"></a>` with namespace processing on produces the tree
`tC1` carrying the synthetic `@xmlns` entry (a nested mapping); serializing
`tC1` under the matching configuration renders that nested mapping as the
Python `repr` text of a dict inside an `xmlns="..."` attribute, and
re-parsing the resulting markup binds the default namespace to that repr
text, renaming the root element — so the re-parse does not reproduce `tC1`
(its result has no entry for key `a` at all). -/
theorem c1_round_trip_fails :
    parseEvents cfgNs none none evC1 = Except.ok tC1 ∧
    roundtripC1 ≠ Except.ok tC1 := by
  refine ⟨rfl, ?_⟩
  intro h
  have h1 : roundtripC1.map (fun d => (dictGet d "a").isSome) = Except.ok false := rfl
  rw [h] at h1
  have h2 : (Except.ok true : Except Err Bool) = Except.ok false := h1
  have h3 : true = false := by injection h2
  exact Bool.noConfusion h3

/-! ## Claim C2 -/

/-- C2 counterexample: for the claimed input the element `a` mapping is
exactly the single child entry, and it has no `@xmlns` entry at all — the
claimed synthetic attribute `attributePrefix ++ "xmlns"` with value
`{"ns": "urn:x"}` is not produced. -/
theorem c2_no_xmlns_for_declaration_only :
    parseEvents cfgNs none none evC2
      = Except.ok [("a", PyValue.dict [("urn:x:b", PyValue.text "1")])] ∧
    dictGet [("urn:x:b", PyValue.text "1")] (cfgNs.attrPref ++ "xmlns") = Option.none :=
  ⟨rfl, rfl⟩

/-- C2 (amended): parsing `<a xmlns:ns="urn:x"><ns:b>1</ns:b></a>` with
namespace processing on and no alias table yields, for element `a`, only the
child entry under key `urn:x:b`; no synthetic `@xmlns` entry is emitted for
this input, because with no alias table the frame is marked only when an
ordinary attribute with a bound namespace prefix is present — as in
`<c xmlns:n="u" n:x="1"></c>`, where `@xmlns` does carry the merged
mapping. -/
theorem c2_namespace_collapse :
    parseEvents cfgNs none none evC2
      = Except.ok [("a", PyValue.dict [("urn:x:b", PyValue.text "1")])] ∧
    parseEvents cfgNs none none [.startTag "c" [("xmlns:n", "u"), ("n:x", "1")], .endTag "c"]
      = Except.ok [("c", PyValue.dict [("@xmlns", PyValue.dict [("n", PyValue.text "u")]),
                                       ("@u:x", PyValue.text "1")])] :=
  ⟨rfl, rfl⟩

/-! ## Claim C7 -/

/-- C7 counterexample: with a post-processing hook that returns `None` on the
root, the parse operation does not yield an empty result — it raises a
structural error ("unclosed element(s) found"), because the early return
leaves the namespace frame unpopped. -/
theorem c7_hook_none_raises :
    parseEvents defaultParseConfig none (some ppDrop) [.startTag "a" [], .endTag "a"]
      = Except.error (.expat "unclosed element(s) found") := rfl

/-- C7 (amended): when the last open frame is popped and the hook returns
`None` on `(resolvedName, finalValue)`, the builder returns with an empty
completion stack and without popping the namespace frame; the overall parse
operation then fails with the structural error "unclosed element(s) found"
rather than returning a tree. -/
theorem c7_hook_none_behavior :
    (∀ (cfg : ParseConfig) (fl : Option ForceListSpec) (pp : Option Postproc)
       (p : String) (m : NsMap) (name : String),
       apply_postprocessor pp [] (build_name cfg [m] name) PyValue.null = Option.none →
       end_element cfg fl pp ⟨[[]], [p], [[]], [m]⟩ name = .ok ⟨[], [], [], [m]⟩) ∧
    parseEvents defaultParseConfig none (some ppDrop) [.startTag "b" [], .endTag "b"]
      = Except.error (.expat "unclosed element(s) found") := by
  refine ⟨?_, rfl⟩
  intro cfg fl pp p m name h
  simp [end_element, textContent, h]

/-- C7 witness. -/
theorem c7_hook_none_behavior_witness :
    end_element defaultParseConfig none (some ppDrop) ⟨[[]], ["a"], [[]], [[]]⟩ "a"
      = .ok ⟨[], [], [], [[]]⟩ :=
  c7_hook_none_behavior.1 defaultParseConfig none (some ppDrop) "a" [] "a" rfl

/-! ## Claim C3 -/

/-- C3: the merge rule's asymmetry. With the hook mapping `(key, data)` to
`(fk, fv)`, inserting into a mapping whose entry for `fk` is already a list
appends the pre-hook raw `data`, while inserting over a non-list entry
builds the two-element list from the existing value and the post-hook
`fv`. -/
theorem c3_merge_asymmetry :
    ∀ (cfg : ParseConfig) (fl : Option ForceListSpec) (pp : Option Postproc)
      (path : List String) (item : Dict) (key : String) (data : PyValue)
      (fk : String) (fv : PyValue),
    apply_postprocessor pp path key data = some (fk, fv) →
    (∀ xs, dictGet item fk = some (.list xs) →
       push_data cfg fl pp path item key data = dictSet item fk (.list (xs ++ [data]))) ∧
    (∀ v, dictGet item fk = some v → isList v = false →
       push_data cfg fl pp path item key data = dictSet item fk (.list [v, fv])) := by
  intro cfg fl pp path item key data fk fv h
  refine ⟨fun xs hx => ?_, fun v hv hnl => ?_⟩
  · simp [push_data, h, hx]
  · cases v <;> simp_all [push_data, isList]

/-- C3 witness: with a hook replacing every value by `text "post"`, the
append into an existing list stores the raw value while the fresh promotion
stores the post-hook value. -/
theorem c3_merge_asymmetry_witness :
    push_data defaultParseConfig none (some ppPost) [] [("k", PyValue.list [])] "k"
        (PyValue.text "raw")
      = dictSet [("k", PyValue.list [])] "k" (PyValue.list [PyValue.text "raw"]) ∧
    push_data defaultParseConfig none (some ppPost) [] [("k", PyValue.text "old")] "k"
        (PyValue.text "raw")
      = dictSet [("k", PyValue.text "old")] "k"
          (PyValue.list [PyValue.text "old", PyValue.text "post"]) :=
  ⟨(c3_merge_asymmetry defaultParseConfig none (some ppPost) [] [("k", PyValue.list [])]
      "k" (PyValue.text "raw") "k" (PyValue.text "post") rfl).1 [] rfl,
   (c3_merge_asymmetry defaultParseConfig none (some ppPost) [] [("k", PyValue.text "old")]
      "k" (PyValue.text "raw") "k" (PyValue.text "post") rfl).2 (PyValue.text "old") rfl rfl⟩

/-! ## Claim C4 -/

/-- C4: with no hooks and no force-list, a first occurrence is stored
directly, a second occurrence promotes the scalar to the two-element list
`[first, second]`, every later occurrence is appended — and the concrete
parse of `<a><b>1</b><b>2</b></a>` yields `a.b == ["1", "2"]` in document
order. -/
theorem c4_sibling_merge :
    (∀ (cfg : ParseConfig) (path : List String) (item : Dict) (key : String) (v : PyValue),
       dictGet item key = Option.none →
       push_data cfg none none path item key v = dictSet item key v) ∧
    (∀ (cfg : ParseConfig) (path : List String) (item : Dict) (key : String) (v w : PyValue),
       dictGet item key = some w → isList w = false →
       push_data cfg none none path item key v = dictSet item key (.list [w, v])) ∧
    (∀ (cfg : ParseConfig) (path : List String) (item : Dict) (key : String)
       (v : PyValue) (xs : List PyValue),
       dictGet item key = some (.list xs) →
       push_data cfg none none path item key v = dictSet item key (.list (xs ++ [v]))) ∧
    parseEvents defaultParseConfig none none evC4
      = Except.ok [("a", PyValue.dict [("b", PyValue.list [PyValue.text "1", PyValue.text "2"])])] := by
  refine ⟨fun cfg path item key v h => ?_, fun cfg path item key v w h hnl => ?_,
    fun cfg path item key v xs h => ?_, rfl⟩
  · simp [push_data, apply_postprocessor, h, should_force_list]
  · cases w <;> simp_all [push_data, apply_postprocessor, isList]
  · simp [push_data, apply_postprocessor, h]

/-- C4 witness: the three merge phases at concrete inputs. -/
theorem c4_sibling_merge_witness :
    push_data defaultParseConfig none none [] [] "b" (PyValue.text "1")
      = [("b", PyValue.text "1")] ∧
    push_data defaultParseConfig none none [] [("b", PyValue.text "1")] "b" (PyValue.text "2")
      = [("b", PyValue.list [PyValue.text "1", PyValue.text "2"])] ∧
    push_data defaultParseConfig none none []
        [("b", PyValue.list [PyValue.text "1", PyValue.text "2"])] "b" (PyValue.text "3")
      = [("b", PyValue.list [PyValue.text "1", PyValue.text "2", PyValue.text "3"])] :=
  ⟨c4_sibling_merge.1 defaultParseConfig [] [] "b" (PyValue.text "1") rfl,
   c4_sibling_merge.2.1 defaultParseConfig [] [("b", PyValue.text "1")] "b"
     (PyValue.text "2") (PyValue.text "1") rfl rfl,
   c4_sibling_merge.2.2.1 defaultParseConfig []
     [("b", PyValue.list [PyValue.text "1", PyValue.text "2"])] "b" (PyValue.text "3")
     [PyValue.text "1", PyValue.text "2"] rfl⟩

/-! ## Claim C5 -/

/-- C5: the force-list policy's four shapes (absent never forces; a plain
boolean applies to every key; a key set tests membership; a predicate is
called on `(path, key, value)`), the policy is not consulted when the key
already has an entry (the merge result does not depend on it), a forced
first occurrence is stored as a one-element list, and concretely force-list
`{"b"}` turns `<a><b>1</b></a>` into `a.b == ["1"]`. -/
theorem c5_force_list_policy :
    (∀ (path : List String) (key : String) (v : PyValue),
       should_force_list none path key v = false) ∧
    (∀ (b : Bool) (path : List String) (key : String) (v : PyValue),
       should_force_list (some (.flag b)) path key v = b) ∧
    (∀ (ks : List String) (path : List String) (key : String) (v : PyValue),
       should_force_list (some (.keySet ks)) path key v = ks.contains key) ∧
    (∀ (f : List String → String → PyValue → Bool) (path : List String)
       (key : String) (v : PyValue),
       should_force_list (some (.pred f)) path key v = f path key v) ∧
    (∀ (cfg : ParseConfig) (fl fl2 : Option ForceListSpec) (pp : Option Postproc)
       (path : List String) (item : Dict) (key : String) (data : PyValue)
       (fk : String) (fv v : PyValue),
       apply_postprocessor pp path key data = some (fk, fv) →
       dictGet item fk = some v →
       push_data cfg fl pp path item key data = push_data cfg fl2 pp path item key data) ∧
    (∀ (cfg : ParseConfig) (fl : Option ForceListSpec) (pp : Option Postproc)
       (path : List String) (item : Dict) (key : String) (data : PyValue)
       (fk : String) (fv : PyValue),
       apply_postprocessor pp path key data = some (fk, fv) →
       dictGet item fk = Option.none →
       should_force_list fl path fk fv = true →
       push_data cfg fl pp path item key data = dictSet item fk (.list [fv])) ∧
    parseEvents defaultParseConfig (some (.keySet ["b"])) none evC5
      = Except.ok [("a", PyValue.dict [("b", PyValue.list [PyValue.text "1"])])] := by
  refine ⟨fun path key v => rfl, fun b path key v => rfl, fun ks path key v => rfl,
    fun f path key v => rfl, ?_, ?_, rfl⟩
  · intro cfg fl fl2 pp path item key data fk fv v h hv
    simp [push_data, h, hv]
  · intro cfg fl pp path item key data fk fv h hn hf
    simp [push_data, h, hn, hf]

/-- C5 witness: non-consultation on an existing entry and the forced
single-element list, at concrete inputs. -/
theorem c5_force_list_policy_witness :
    push_data defaultParseConfig (some (.flag true)) none []
        [("k", PyValue.text "x")] "k" (PyValue.text "y")
      = push_data defaultParseConfig (some (.flag false)) none []
          [("k", PyValue.text "x")] "k" (PyValue.text "y") ∧
    push_data defaultParseConfig (some (.keySet ["b"])) none [] [] "b" (PyValue.text "1")
      = dictSet [] "b" (PyValue.list [PyValue.text "1"]) :=
  ⟨c5_force_list_policy.2.2.2.2.1 defaultParseConfig (some (.flag true)) (some (.flag false))
      none [] [("k", PyValue.text "x")] "k" (PyValue.text "y") "k" (PyValue.text "y")
      (PyValue.text "x") rfl rfl,
   c5_force_list_policy.2.2.2.2.2.1 defaultParseConfig (some (.keySet ["b"])) none [] []
      "b" (PyValue.text "1") "b" (PyValue.text "1") rfl rfl rfl⟩

/-! ## Claim C6 -/

/-- C6: the frame's final value at end-tag time, observed through the merge
into the parent frame. With the popped frame holding attribute mapping
`current` and fragments `tp`: both absent gives `Null`; text only with
`force_cdata` off gives the bare text; text only with `force_cdata` on gives
the mapping built by inserting the hook-processed text into an empty
mapping; attributes and text gives `current` with the hook-processed text
inserted; attributes without text gives `current` itself. -/
theorem c6_end_element_final_value :
    ∀ (cfg : ParseConfig) (fl : Option ForceListSpec) (pp : Option Postproc)
      (name pcur ppar : String) (parent current : Dict) (tp ptp : List String)
      (m1 m2 : NsMap),
    (current = [] → textContent cfg tp = none →
       end_element cfg fl pp ⟨[current, parent], [pcur, ppar], [tp, ptp], [m1, m2]⟩ name
         = .ok ⟨[push_data cfg fl pp [ppar] parent (build_name cfg [m1, m2] name)
                  PyValue.null], [ppar], [ptp], [m2]⟩) ∧
    (∀ t, current = [] → textContent cfg tp = some t → cfg.force_cdata = false →
       end_element cfg fl pp ⟨[current, parent], [pcur, ppar], [tp, ptp], [m1, m2]⟩ name
         = .ok ⟨[push_data cfg fl pp [ppar] parent (build_name cfg [m1, m2] name)
                  (PyValue.text t)], [ppar], [ptp], [m2]⟩) ∧
    (∀ t, current = [] → textContent cfg tp = some t → cfg.force_cdata = true →
       end_element cfg fl pp ⟨[current, parent], [pcur, ppar], [tp, ptp], [m1, m2]⟩ name
         = .ok ⟨[push_data cfg fl pp [ppar] parent (build_name cfg [m1, m2] name)
                  (.dict (hookTextInsert pp [ppar] cfg.cdataKey t []))],
                [ppar], [ptp], [m2]⟩) ∧
    (∀ t, current ≠ [] → textContent cfg tp = some t →
       end_element cfg fl pp ⟨[current, parent], [pcur, ppar], [tp, ptp], [m1, m2]⟩ name
         = .ok ⟨[push_data cfg fl pp [ppar] parent (build_name cfg [m1, m2] name)
                  (.dict (hookTextInsert pp [ppar] cfg.cdataKey t current))],
                [ppar], [ptp], [m2]⟩) ∧
    (current ≠ [] → textContent cfg tp = none →
       end_element cfg fl pp ⟨[current, parent], [pcur, ppar], [tp, ptp], [m1, m2]⟩ name
         = .ok ⟨[push_data cfg fl pp [ppar] parent (build_name cfg [m1, m2] name)
                  (.dict current)], [ppar], [ptp], [m2]⟩) := by
  intro cfg fl pp name pcur ppar parent current tp ptp m1 m2
  refine ⟨?_, ?_, ?_, ?_, ?_⟩
  · intro hc htc
    subst hc
    simp [end_element, htc]
  · intro t hc htc hfc
    subst hc
    simp [end_element, htc, hfc]
  · intro t hc htc hfc
    subst hc
    simp [end_element, htc, hfc, hookTextInsert]
  · intro t hc htc
    obtain ⟨c0, cr⟩ : ∃ c0 cr, current = c0 :: cr := by
      cases current with
      | nil => exact absurd rfl hc
      | cons c0 cr => exact ⟨c0, cr, rfl⟩
    obtain ⟨cr, rfl⟩ := cr
    simp [end_element, htc, hookTextInsert]
  · intro hc htc
    obtain ⟨c0, cr⟩ : ∃ c0 cr, current = c0 :: cr := by
      cases current with
      | nil => exact absurd rfl hc
      | cons c0 cr => exact ⟨c0, cr, rfl⟩
    obtain ⟨cr, rfl⟩ := cr
    simp [end_element, htc]

/-- C6 witness: the bare-text case, and the Null case on a whitespace-only
fragment list that strips to no text, at concrete frames. -/
theorem c6_end_element_final_value_witness :
    end_element defaultParseConfig none none ⟨[[], []], ["b", "a"], [["hi"], []], [[], []]⟩ "b"
      = .ok ⟨[[("b", PyValue.text "hi")]], ["a"], [[]], [[]]⟩ ∧
    end_element defaultParseConfig none none ⟨[[], []], ["b", "a"], [["  "], []], [[], []]⟩ "b"
      = .ok ⟨[[("b", PyValue.null)]], ["a"], [[]], [[]]⟩ :=
  ⟨(c6_end_element_final_value defaultParseConfig none none "b" "b" "a" [] [] ["hi"] []
     [] []).2.1 "hi" rfl rfl rfl,
   (c6_end_element_final_value defaultParseConfig none none "b" "b" "a" [] [] ["  "] []
     [] []).1 rfl rfl⟩

/-! ## Claim C8 -/

/-- C8: namespace resolution of a name. The name splits on the first colon
(unprefixed names use the empty-string default-namespace prefix, which is
what `splitName` yields); with namespace processing off, or no namespace
frame, or an unbound prefix, the name is returned unchanged; a bound prefix
resolves to `alias ++ nsSep ++ local` where the alias is the external
table's entry for the URI (the raw URI when absent), except that an empty
alias yields just the local name. -/
theorem c8_build_name :
    ∀ (cfg : ParseConfig) (nsStack : List NsMap) (name : String),
    (cfg.process_namespaces = false → build_name cfg nsStack name = name) ∧
    (nsStack = [] → build_name cfg nsStack name = name) ∧
    (∀ (m : NsMap) (rest : List NsMap) (uri : String),
       cfg.process_namespaces = true → nsStack = m :: rest →
       nsGet m (splitName name).1 = some uri →
       (((aliasGet cfg.namespaces uri).getD uri = "" →
           build_name cfg nsStack name = (splitName name).2) ∧
        ((aliasGet cfg.namespaces uri).getD uri ≠ "" →
           build_name cfg nsStack name
             = (aliasGet cfg.namespaces uri).getD uri ++ cfg.nsSep ++ (splitName name).2))) ∧
    (∀ (m : NsMap) (rest : List NsMap),
       cfg.process_namespaces = true → nsStack = m :: rest →
       nsGet m (splitName name).1 = Option.none →
       build_name cfg nsStack name = name) := by
  intro cfg nsStack name
  refine ⟨fun h => ?_, fun h => ?_, ?_, ?_⟩
  · simp [build_name, h]
  · subst h
    simp [build_name]
  · intro m rest uri hp hs hg
    subst hs
    refine ⟨fun he => ?_, fun he => ?_⟩
    · simp [build_name, hp, hg, he]
    · simp [build_name, hp, hg, he]
  · intro m rest hp hs hg
    subst hs
    simp [build_name, hp, hg]

/-- C8 witness: a mapped alias, an empty alias, an unbound prefix and
disabled processing, all at concrete inputs. -/
theorem c8_build_name_witness :
    build_name { cfgNs with namespaces := some [("u", "A"), ("w", "")] }
        [[("n", "u"), ("e", "w")]] "n:x" = "A:x" ∧
    build_name { cfgNs with namespaces := some [("u", "A"), ("w", "")] }
        [[("n", "u"), ("e", "w")]] "e:x" = "x" ∧
    build_name { cfgNs with namespaces := some [("u", "A"), ("w", "")] }
        [[("n", "u"), ("e", "w")]] "z:x" = "z:x" ∧
    build_name defaultParseConfig [[("n", "u")]] "n:x" = "n:x" := by
  refine ⟨?_, ?_, ?_, ?_⟩
  · exact ((c8_build_name { cfgNs with namespaces := some [("u", "A"), ("w", "")] }
      [[("n", "u"), ("e", "w")]] "n:x").2.2.1 [("n", "u"), ("e", "w")] [] "u" rfl rfl
      rfl).2 (by decide)
  · exact ((c8_build_name { cfgNs with namespaces := some [("u", "A"), ("w", "")] }
      [[("n", "u"), ("e", "w")]] "e:x").2.2.1 [("n", "u"), ("e", "w")] [] "w" rfl rfl
      rfl).1 rfl
  · exact (c8_build_name { cfgNs with namespaces := some [("u", "A"), ("w", "")] }
      [[("n", "u"), ("e", "w")]] "z:x").2.2.2 [("n", "u"), ("e", "w")] [] rfl rfl rfl
  · exact (c8_build_name defaultParseConfig [[("n", "u")]] "n:x").1 rfl

/-! ## Claim C9: helper lemmas about the escape loops -/

/-- Two strings with equal character data are equal. -/
theorem strEq_of_data (a b : String) (h : a.data = b.data) : a = b := by
  cases a
  cases b
  exact congrArg String.mk h

/-- Character data of a string concatenation. -/
theorem strData_append (a b : String) : (a ++ b).data = a.data ++ b.data := rfl

/-- A non-special character is its own replacement. -/
theorem replTextSpec_not_special {c : Char} (h : specialText c = false) :
    replTextSpec c = [c] := by
  simp only [specialText, Bool.or_eq_false_iff, decide_eq_false_iff_not] at h
  simp [replTextSpec, h.1.1, h.1.2, h.2]

/-- The emitted entity is the specified replacement on special characters. -/
theorem entityText_data {c : Char} (h : specialText c = true) :
    (entityText c).data = replTextSpec c := by
  simp only [specialText, Bool.or_eq_true, decide_eq_true_eq] at h
  rcases h with (h | h) | h <;> subst h <;> rfl

/-- The text-escape loop emits the per-character replacements after the
accumulator and the pending run. -/
theorem escTextGo_data :
    ∀ (cs : List Char) (acc : String) (pending : List Char),
    (escTextGo acc pending cs).data
      = acc.data ++ pending.reverse ++ (cs.map replTextSpec).flatten := by
  intro cs
  induction cs with
  | nil => intro acc pending; simp [escTextGo, strData_append]
  | cons c rest ih =>
    intro acc pending
    by_cases h : specialText c = true
    · simp [escTextGo, h, ih, strData_append, entityText_data h]
    · have h' : specialText c = false := by simpa using h
      simp [escTextGo, h', ih, replTextSpec_not_special h']

/-- Identity of the replacement map on special-free character lists. -/
theorem join_map_replTextSpec (cs : List Char) (h : ∀ c ∈ cs, specialText c = false) :
    (cs.map replTextSpec).flatten = cs := by
  induction cs with
  | nil => rfl
  | cons c rest ih =>
    simp [replTextSpec_not_special (h c (by simp)), ih (fun x hx => h x (by simp [hx]))]

/-- A non-special character is its own attribute replacement. -/
theorem replAttrSpec_not_special {c : Char} (h : specialAttr c = false) :
    replAttrSpec c = [c] := by
  simp only [specialAttr, Bool.or_eq_false_iff, decide_eq_false_iff_not] at h
  simp [replAttrSpec, h.1.1.1, h.1.1.2, h.1.2, h.2]

/-- The emitted attribute entity is the specified replacement on special
characters. -/
theorem entityAttr_data {c : Char} (h : specialAttr c = true) :
    (entityAttr c).data = replAttrSpec c := by
  simp only [specialAttr, Bool.or_eq_true, decide_eq_true_eq] at h
  rcases h with ((h | h) | h) | h <;> subst h <;> rfl

/-- The attribute-escape loop emits the per-character replacements after the
accumulator and the pending run; while no special character has been seen
the pending run is exactly the consumed prefix of the original. -/
theorem escAttrGo_data :
    ∀ (cs : List Char) (accOpt : Option String) (pending : List Char) (orig : String),
    (accOpt = none → orig.data = pending.reverse ++ cs) →
    ((escAttrGo orig accOpt pending cs).toStr).data
      = (accOpt.getD "").data ++ pending.reverse ++ (cs.map replAttrSpec).flatten := by
  intro cs
  induction cs with
  | nil =>
    intro accOpt pending orig hinv
    cases accOpt with
    | none => simpa [escAttrGo, RCow.toStr] using hinv rfl
    | some a => simp [escAttrGo, RCow.toStr, strData_append]
  | cons c rest ih =>
    intro accOpt pending orig hinv
    by_cases h : specialAttr c = true
    · have hstep : escAttrGo orig accOpt pending (c :: rest)
          = escAttrGo orig (some ((accOpt.getD "") ++ String.mk pending.reverse ++ entityAttr c))
              [] rest := by
        simp [escAttrGo, h]
      rw [hstep, ih (some ((accOpt.getD "") ++ String.mk pending.reverse ++ entityAttr c)) []
        orig (by simp)]
      simp [strData_append, entityAttr_data h, List.append_assoc]
    · have h' : specialAttr c = false := by simpa using h
      have hinv' : accOpt = none → orig.data = (c :: pending).reverse ++ rest := by
        intro ha
        rw [hinv ha]
        simp
      have hstep : escAttrGo orig accOpt pending (c :: rest)
          = escAttrGo orig accOpt (c :: pending) rest := by
        simp [escAttrGo, h']
      rw [hstep, ih accOpt (c :: pending) orig hinv']
      simp [replAttrSpec_not_special h', List.append_assoc]

/-- The attribute-escape loop returns the borrowed original on special-free
input. -/
theorem escAttrGo_borrowed :
    ∀ (cs : List Char) (pending : List Char) (orig : String),
    (∀ c ∈ cs, specialAttr c = false) →
    escAttrGo orig none pending cs = .borrowed orig := by
  intro cs
  induction cs with
  | nil => intro pending orig _; rfl
  | cons c rest ih =>
    intro pending orig h
    have hc : specialAttr c = false := h c (by simp)
    simp only [escAttrGo, hc, Bool.false_eq_true, if_false]
    exact ih (c :: pending) orig (fun x hx => h x (by simp [hx]))

/-! ## Claim C9 -/

/-- C9: for every string, `escape_xml` equals the claimed per-character
replacement of `&`, `<`, `>` (all other characters unchanged) and
`escape_xml_attr` the same with `"` added; and when the input contains no
special character, both return the borrowed input itself unmodified. -/
theorem c9_escape_functions :
    ∀ s : String,
    (escape_xml s).toStr = String.mk ((s.data.map replTextSpec).flatten) ∧
    (escape_xml_attr s).toStr = String.mk ((s.data.map replAttrSpec).flatten) ∧
    (s.data.any specialText = false → escape_xml s = .borrowed s) ∧
    (s.data.any specialAttr = false → escape_xml_attr s = .borrowed s) := by
  intro s
  refine ⟨?_, ?_, fun h => ?_, fun h => ?_⟩
  · apply strEq_of_data
    by_cases h : s.data.any specialText
    · simp [escape_xml, h, RCow.toStr, escTextGo_data]
    · have h' : ∀ c ∈ s.data, specialText c = false := by
        intro c hc
        by_contra hs
        exact h (List.any_eq_true.2 ⟨c, hc, by simpa using hs⟩)
      simp [escape_xml, h, RCow.toStr, join_map_replTextSpec s.data h']
  · apply strEq_of_data
    exact escAttrGo_data s.data none [] s (fun _ => by simp)
  · simp [escape_xml, h]
  · have h' : ∀ c ∈ s.data, specialAttr c = false := by
      intro c hc
      by_contra hs
      have : s.data.any specialAttr = true := List.any_eq_true.2 ⟨c, hc, by simpa using hs⟩
      rw [this] at h
      exact Bool.noConfusion h
    exact escAttrGo_borrowed s.data [] s h'

/-- C9 witness. -/
theorem c9_escape_functions_witness :
    (escape_xml "a&b").toStr = "a&amp;b" ∧
    escape_xml "plain" = RCow.borrowed "plain" ∧
    (escape_xml_attr "a\"b").toStr = "a&quot;b" ∧
    escape_xml_attr "plain" = RCow.borrowed "plain" :=
  ⟨(c9_escape_functions "a&b").1.trans rfl,
   (c9_escape_functions "plain").2.2.1 rfl,
   (c9_escape_functions "a\"b").2.1.trans rfl,
   (c9_escape_functions "plain").2.2.2 rfl⟩

/-! ## Claim C10 -/

/-- C10: under full-document mode, the serializer rejects a top-level
mapping with zero entries or more than one before producing any output (the
error carries no partial string); and `{"a": null}` serializes to `<a></a>`
or `<a/>` according to `short_empty_elements` (shown without the document
header so the element markup is exact). -/
theorem c10_unparse_document_root :
    (∀ (fuel : Nat) (cfg : UnparseConfig) (pre : Option Preproc) (d : Dict),
       cfg.full_document = true → (d.length = 0 ∨ 1 < d.length) →
       unparse fuel cfg pre d = .error (.valueError "Document must have exactly one root")) ∧
    unparse 50 ucfg none [("a", PyValue.null)] = .ok "<a></a>" ∧
    unparse 50 { ucfg with short_empty_elements := true } none [("a", PyValue.null)]
      = .ok "<a/>" := by
  refine ⟨?_, rfl, rfl⟩
  intro fuel cfg pre d hfd hlen
  rcases hlen with h0 | h1
  · unfold unparse
    simp [hfd, h0]
  · have h0 : (d.length == 0) = false := by
      simp only [beq_eq_false_iff_ne, ne_eq]
      omega
    unfold unparse
    simp [hfd, h0, h1]

/-- C10 witness. -/
theorem c10_unparse_document_root_witness :
    unparse 50 { ucfg with full_document := true } none []
      = .error (.valueError "Document must have exactly one root") ∧
    unparse 50 { ucfg with full_document := true } none
        [("a", PyValue.text "1"), ("b", PyValue.text "2")]
      = .error (.valueError "Document must have exactly one root") :=
  ⟨c10_unparse_document_root.1 50 { ucfg with full_document := true } none [] rfl (Or.inl rfl),
   c10_unparse_document_root.1 50 { ucfg with full_document := true } none
     [("a", PyValue.text "1"), ("b", PyValue.text "2")] rfl (Or.inr (by decide))⟩
